import Mathlib

/-!
Verification of the OAuth 2.0 Device Authorization Grant client in
`src/script/setup/getToken.mts`.

Text (the `.env` credential store) is modelled as `List Char`; lines are
obtained by splitting on the newline character, mirroring
`raw.split('\n')` in the source.  The poll loop of `main` is modelled as a
fuel-based state machine (`pollLoopAux` / `runFlow`) whose fuel is the
source's `maxAttempts = Math.floor(expiresIn / interval)` bound, with an
explicit elapsed-seconds counter recording when each token request is
issued.  All numeric quantities are whole seconds, as in the source;
the server-supplied `interval` is a `Nat` (the spec's data model requires
`intervalSeconds ≥ 1`; JavaScript's division-by-zero-to-Infinity behaviour
is outside that range and outside the claims).
-/

namespace GetToken

/-- Whitespace test matching the characters JavaScript `String.prototype.trim`
removes (space, tab, LF, CR, VT, FF, NBSP, BOM). -/
def isWS (c : Char) : Bool :=
  c == ' ' || c == '\t' || c == '\n' || c == '\r' || c == '\x0b' ||
  c == '\x0c' || c == ' ' || c == '﻿'

/-- JavaScript `s.trim()`: drop whitespace from both ends. -/
def trimChars (l : List Char) : List Char :=
  ((l.dropWhile isWS).reverse.dropWhile isWS).reverse

/-- JavaScript `line.trim() === ''`: the line is empty or whitespace-only. -/
def isBlank (l : List Char) : Bool :=
  (trimChars l).isEmpty

/-- JavaScript `s.startsWith(p)` on character lists. -/
def startsWith : List Char → List Char → Bool
  | _, [] => true
  | [], _ :: _ => false
  | c :: cs, p :: ps => c == p && startsWith cs ps

/-- JavaScript `raw.split('\n')`: split into lines at each newline.  Always
returns at least one (possibly empty) line. -/
def splitLines : List Char → List (List Char)
  | [] => [[]]
  | c :: cs =>
    match splitLines cs with
    | [] => [[]]
    | l :: ls => if c = '\n' then [] :: l :: ls else (c :: l) :: ls

/-- JavaScript `lines.join('\n')`. -/
def joinLines : List (List Char) → List Char
  | [] => []
  | [l] => l
  | l :: l₂ :: ls => l ++ '\n' :: joinLines (l₂ :: ls)

/-- The single key the script contributes to the `.env` store
(`GITHUB_OAUTH_TOKEN=` as written in the source, equality tested by
`line.startsWith('GITHUB_OAUTH_TOKEN=')`). -/
def tokenKey : List Char := "GITHUB_OAUTH_TOKEN=".toList

/-- The line-level save pipeline from `getToken.mts` lines 204-208:
drop lines starting with the token key, append the new token line,
then drop empty/whitespace-only lines. -/
def saveLines (ls : List (List Char)) (accessToken : List Char) : List (List Char) :=
  ((ls.filter (fun line => !(startsWith line tokenKey))) ++
      [tokenKey ++ accessToken]).filter (fun line => !(isBlank line))

/-- The full text-level save of `getToken.mts` lines 203-210: read the raw
store, split into lines, run the pipeline, join and write back. -/
def saveToken (raw : List Char) (accessToken : List Char) : List Char :=
  joinLines (saveLines (splitLines raw) accessToken)

/-! ### The device-code request (`getToken.mts` lines 97-103)

The script parses the device-authorization response and aborts (exit 1)
when `!response1.user_code || !response1.device_code`; no other field is
checked.  A field is modelled as `Option (List Char)` (`none` = absent),
and JavaScript truthiness of a string field is `present and non-empty`. -/

structure DeviceCodeResponse where
  device_code : Option (List Char)
  user_code : Option (List Char)
  verification_uri : Option (List Char)
  expires_in : Option Nat
  interval : Option Nat
deriving DecidableEq

/-- JavaScript truthiness of an optional string field. -/
def truthyField : Option (List Char) → Bool
  | none => false
  | some s => !s.isEmpty

/-- The validation on `getToken.mts` line 99: the flow proceeds exactly when
this is `true`, otherwise it exits fatally before polling. -/
def validateDeviceResponse (r : DeviceCodeResponse) : Bool :=
  truthyField r.user_code && truthyField r.device_code

/-! ### The poll loop (`getToken.mts` lines 134-196)

One server response per token request, as classified by the source's
if/else chain on `tokenResponse`; `networkError` is the `catch` around a
single poll's `fetch`/`json`. -/

inductive PollResponse where
  | granted (token : String)
  | pending
  | slowDown
  | expiredToken
  | accessDenied
  | unexpected
  | networkError
deriving DecidableEq

/-- Terminal outcome of the polling phase.  `timeout` is the source's
"Timed out waiting for authorization" exit taken when the loop ends with
`accessToken === undefined`. -/
inductive FlowResult where
  | success (token : String)
  | expired
  | denied
  | timeout
deriving DecidableEq

/-- Trace of one polling phase: terminal result, the elapsed-seconds
timestamps (measured from device-code issuance) at which each token request
was issued, and the console messages printed by the response branches. -/
structure PollTrace where
  result : FlowResult
  pollTimes : List Nat
  log : List String
deriving DecidableEq

/-- The while loop of `getToken.mts` lines 139-184.  `fuel` is the number of
attempts still allowed by `attempts < maxAttempts`; `e` is the mutable
`expiresIn` countdown; `now` is elapsed wall-clock seconds since issuance
(each iteration sleeps `interval` seconds at line 183, and the `slow_down`
branch sleeps one extra second at line 168 before that); `times` and `log`
accumulate issued-request timestamps and printed messages. -/
def pollLoopAux (i : Nat) (script : Nat → PollResponse) :
    Nat → Int → Nat → List Nat → List String → PollTrace
  | 0, _, _, times, log => ⟨.timeout, times, log⟩
  | fuel + 1, e, now, times, log =>
    if e ≤ 0 then ⟨.timeout, times, log⟩
    else
      match script times.length with
      | .granted tok =>
          ⟨.success tok, times ++ [now], log ++ ["Authorization successful!"]⟩
      | .pending =>
          pollLoopAux i script fuel (e - (i : Int)) (now + i)
            (times ++ [now]) (log ++ ["authorization_pending"])
      | .slowDown =>
          pollLoopAux i script fuel (e - (i : Int)) (now + 1 + i)
            (times ++ [now]) (log ++ ["Slowing down polling rate..."])
      | .expiredToken =>
          ⟨.expired, times ++ [now], log ++ ["Device code has expired."]⟩
      | .accessDenied =>
          ⟨.denied, times ++ [now], log ++ ["Authorization was denied."]⟩
      | .unexpected =>
          pollLoopAux i script fuel (e - (i : Int)) (now + i)
            (times ++ [now]) (log ++ ["Unexpected response"])
      | .networkError =>
          pollLoopAux i script fuel (e - (i : Int)) (now + i)
            (times ++ [now]) (log ++ ["Error polling for token"])

/-- The whole polling phase of `main`: `maxAttempts = Math.floor(expiresIn /
interval)` (line 137), initial countdown `expiresIn` (line 134), and the
loop starting `keypressDelay` seconds after issuance (the wait at the
keypress prompt on line 119 plus the browser-opening pause). -/
def runFlow (expiresIn i keypressDelay : Nat) (script : Nat → PollResponse) : PollTrace :=
  pollLoopAux i script (expiresIn / i) (expiresIn : Int) keypressDelay [] []

/-- Responses on which the loop continues to the next iteration. -/
def contResponse : PollResponse → Bool
  | .granted _ => false
  | .expiredToken => false
  | .accessDenied => false
  | _ => true

/-- Extra seconds slept inside a response branch (the `slow_down` branch
sleeps one extra second; every other continuing branch sleeps nothing
beyond the shared interval sleep). -/
def extraOf : PollResponse → Nat
  | .slowDown => 1
  | _ => 0

/-- Elapsed seconds between the poll at index `n` and the poll at index
`n + j`, for a loop that keeps continuing: each iteration contributes the
interval sleep plus the branch's extra sleep. -/
def offsetOf (script : Nat → PollResponse) (i n : Nat) : Nat → Nat
  | 0 => 0
  | j + 1 => offsetOf script i n j + i + extraOf (script (n + j))

/-! ### Persistence model for step 5 (`getToken.mts` lines 198-232)

`writeSucceeds = false` models `fs.writeFileSync` throwing: the catch
branch prints an error report plus the raw token line and exits with
code 1, leaving the store as it was. -/

def persistToken (priorEnv accessToken : List Char) (writeSucceeds : Bool) :
    Nat × List (List Char) × List Char :=
  if writeSucceeds then
    (0, ["Token saved to .env file successfully".toList],
      saveToken priorEnv accessToken)
  else
    (1, ["Failed to save token to .env file".toList,
         "You can manually add this line to your .env file:".toList,
         tokenKey ++ accessToken], priorEnv)

/-! ### Basic facts about the line model -/

theorem splitLines_cons (c : Char) (cs m : List Char) (ms : List (List Char))
    (h : splitLines cs = m :: ms) :
    splitLines (c :: cs) = if c = '\n' then [] :: m :: ms else (c :: m) :: ms := by
  simp only [splitLines, h]

theorem splitLines_ne_nil (cs : List Char) : splitLines cs ≠ [] := by
  induction cs with
  | nil => simp [splitLines]
  | cons c cs ih =>
    cases h : splitLines cs with
    | nil => exact absurd h ih
    | cons m ms =>
      rw [splitLines_cons c cs m ms h]
      split <;> simp

theorem splitLines_no_newline (cs : List Char) :
    ∀ l ∈ splitLines cs, '\n' ∉ l := by
  induction cs with
  | nil => intro l hl; simp [splitLines] at hl; simp [hl]
  | cons c cs ih =>
    intro l hl
    cases h : splitLines cs with
    | nil => exact absurd h (splitLines_ne_nil cs)
    | cons m ms =>
      rw [splitLines_cons c cs m ms h] at hl
      by_cases hc : c = '\n'
      · rw [if_pos hc] at hl
        rcases List.mem_cons.mp hl with hl | hl
        · simp [hl]
        · exact ih l (by rw [h]; exact hl)
      · rw [if_neg hc] at hl
        rcases List.mem_cons.mp hl with hl | hl
        · subst hl
          intro hmem
          rcases List.mem_cons.mp hmem with hh | hh
          · exact hc hh.symm
          · exact ih m (by rw [h]; exact List.mem_cons_self m ms) hh
        · exact ih l (by rw [h]; exact List.mem_cons.mpr (Or.inr hl))

theorem splitLines_append (l cs : List Char) (m : List Char) (ms : List (List Char))
    (hnl : '\n' ∉ l) (hcs : splitLines cs = m :: ms) :
    splitLines (l ++ cs) = (l ++ m) :: ms := by
  induction l with
  | nil => simpa using hcs
  | cons c l ih =>
    have hc : c ≠ '\n' := fun h => hnl (h ▸ List.mem_cons_self c l)
    have hl : '\n' ∉ l := fun h => hnl (List.mem_cons.mpr (Or.inr h))
    have hrec := ih hl
    rw [List.cons_append, splitLines_cons c (l ++ cs) (l ++ m) ms hrec, if_neg hc,
      ← List.cons_append]

theorem splitLines_of_no_newline (l : List Char) (hnl : '\n' ∉ l) :
    splitLines l = [l] := by
  have := splitLines_append l [] [] [] hnl (by simp [splitLines])
  simpa using this

theorem splitLines_joinLines (L : List (List Char)) (hne : L ≠ [])
    (hnl : ∀ l ∈ L, '\n' ∉ l) : splitLines (joinLines L) = L := by
  induction L with
  | nil => exact absurd rfl hne
  | cons l ls ih =>
    cases ls with
    | nil =>
      simp only [joinLines]
      exact splitLines_of_no_newline l (hnl l (List.mem_cons_self l []))
    | cons m ms =>
      have hrest : splitLines (joinLines (m :: ms)) = m :: ms :=
        ih (by simp) (fun x hx => hnl x (List.mem_cons.mpr (Or.inr hx)))
      have hstep : splitLines ('\n' :: joinLines (m :: ms)) = [] :: m :: ms := by
        cases hsub : splitLines (joinLines (m :: ms)) with
        | nil => exact absurd hsub (splitLines_ne_nil _)
        | cons a as =>
          rw [hrest] at hsub
          rw [splitLines_cons _ _ a as (by rw [hrest, hsub]), if_pos rfl, ← hsub]
      have hl : '\n' ∉ l := hnl l (List.mem_cons_self l (m :: ms))
      have := splitLines_append l ('\n' :: joinLines (m :: ms)) [] (m :: ms) hl hstep
      simpa [joinLines] using this

theorem trimChars_eq_nil_iff (l : List Char) :
    trimChars l = [] ↔ ∀ c ∈ l, isWS c = true := by
  constructor
  · intro h c hc
    have h1 : (l.dropWhile isWS).reverse.dropWhile isWS = [] := by
      simpa [trimChars, List.reverse_eq_nil_iff] using h
    have h2 : ∀ x ∈ (l.dropWhile isWS).reverse, isWS x := by
      exact List.dropWhile_eq_nil_iff.mp h1
    have h3 : ∀ x ∈ l.dropWhile isWS, isWS x := by
      intro x hx; exact h2 x (List.mem_reverse.mpr hx)
    have hsplit : l.takeWhile isWS ++ l.dropWhile isWS = l :=
      List.takeWhile_append_dropWhile isWS l
    rw [← hsplit] at hc
    rcases List.mem_append.mp hc with hc | hc
    · exact List.mem_takeWhile_imp hc
    · exact h3 c hc
  · intro h
    have h1 : l.dropWhile isWS = [] :=
      List.dropWhile_eq_nil_iff.mpr h
    simp [trimChars, h1]

theorem isBlank_tokenKey_append (tok : List Char) :
    isBlank (tokenKey ++ tok) = false := by
  by_contra h
  have hb : isBlank (tokenKey ++ tok) = true := by
    cases hx : isBlank (tokenKey ++ tok) with
    | false => exact absurd hx h
    | true => rfl
  have : trimChars (tokenKey ++ tok) = [] := by
    simpa [isBlank, List.isEmpty_iff] using hb
  have hall := (trimChars_eq_nil_iff _).mp this
  have hg : ('G' : Char) ∈ tokenKey ++ tok :=
    List.mem_append_left _ (by decide)
  have := hall 'G' hg
  simp [isWS] at this

theorem startsWith_append_self (p t : List Char) :
    startsWith (p ++ t) p = true := by
  induction p with
  | nil => cases t <;> simp [startsWith]
  | cons c cs ih => simp [startsWith, ih]

theorem no_newline_tokenKey_append (tok : List Char) (h : '\n' ∉ tok) :
    '\n' ∉ tokenKey ++ tok := by
  intro hmem
  rcases List.mem_append.mp hmem with hm | hm
  · have : ('\n' : Char) ∈ tokenKey := hm
    revert this; decide
  · exact h hm

/-- `saveLines` in closed form: the kept unrelated lines followed by the new
token line (which the blank filter always keeps). -/
theorem saveLines_eq (ls : List (List Char)) (tok : List Char) :
    saveLines ls tok =
      ((ls.filter (fun line => !(startsWith line tokenKey))).filter
        (fun line => !(isBlank line))) ++ [tokenKey ++ tok] := by
  simp [saveLines, List.filter_append, isBlank_tokenKey_append]

theorem saveLines_ne_nil (ls : List (List Char)) (tok : List Char) :
    saveLines ls tok ≠ [] := by
  rw [saveLines_eq]; simp

/-- Splitting the written store recovers exactly the pipeline's line list,
provided the token itself is a single line. -/
theorem saveToken_splitLines (raw tok : List Char) (h : '\n' ∉ tok) :
    splitLines (saveToken raw tok) = saveLines (splitLines raw) tok := by
  unfold saveToken
  apply splitLines_joinLines
  · exact saveLines_ne_nil _ _
  · intro l hl
    rw [saveLines_eq] at hl
    rcases List.mem_append.mp hl with hm | hm
    · have hm1 := List.mem_filter.mp hm
      have hm2 := List.mem_filter.mp hm1.1
      exact splitLines_no_newline raw l hm2.1
    · have : l = tokenKey ++ tok := by simpa using hm
      rw [this]
      exact no_newline_tokenKey_append tok h

/-! ### Poll-loop lemmas -/

theorem pollLoopAux_length_le (i : Nat) (s : Nat → PollResponse) :
    ∀ (fuel : Nat) (e : Int) (now : Nat) (times : List Nat) (log : List String),
      (pollLoopAux i s fuel e now times log).pollTimes.length ≤ times.length + fuel := by
  intro fuel
  induction fuel with
  | zero => intro e now times log; simp [pollLoopAux]
  | succ f ih =>
    intro e now times log
    rw [pollLoopAux]
    by_cases he : e ≤ 0
    · rw [if_pos he]; simp
    · rw [if_neg he]
      cases hs : s times.length with
      | granted tok => simp
      | expiredToken => simp
      | accessDenied => simp
      | pending =>
        have := ih (e - (i : Int)) (now + i) (times ++ [now]) (log ++ ["authorization_pending"])
        simp only [List.length_append, List.length_cons, List.length_nil] at this ⊢
        omega
      | slowDown =>
        have := ih (e - (i : Int)) (now + 1 + i) (times ++ [now]) (log ++ ["Slowing down polling rate..."])
        simp only [List.length_append, List.length_cons, List.length_nil] at this ⊢
        omega
      | unexpected =>
        have := ih (e - (i : Int)) (now + i) (times ++ [now]) (log ++ ["Unexpected response"])
        simp only [List.length_append, List.length_cons, List.length_nil] at this ⊢
        omega
      | networkError =>
        have := ih (e - (i : Int)) (now + i) (times ++ [now]) (log ++ ["Error polling for token"])
        simp only [List.length_append, List.length_cons, List.length_nil] at this ⊢
        omega

theorem pollLoopAux_times_le (i : Nat) (s : Nat → PollResponse) :
    ∀ (fuel : Nat) (e : Int) (now : Nat) (times : List Nat) (log : List String),
      times.length ≤ (pollLoopAux i s fuel e now times log).pollTimes.length := by
  intro fuel
  induction fuel with
  | zero => intro e now times log; simp [pollLoopAux]
  | succ f ih =>
    intro e now times log
    rw [pollLoopAux]
    by_cases he : e ≤ 0
    · rw [if_pos he]
    · rw [if_neg he]
      cases hs : s times.length with
      | granted tok => simp
      | expiredToken => simp
      | accessDenied => simp
      | pending =>
        have := ih (e - (i : Int)) (now + i) (times ++ [now]) (log ++ ["authorization_pending"])
        simp only [List.length_append, List.length_cons, List.length_nil] at this ⊢
        omega
      | slowDown =>
        have := ih (e - (i : Int)) (now + 1 + i) (times ++ [now]) (log ++ ["Slowing down polling rate..."])
        simp only [List.length_append, List.length_cons, List.length_nil] at this ⊢
        omega
      | unexpected =>
        have := ih (e - (i : Int)) (now + i) (times ++ [now]) (log ++ ["Unexpected response"])
        simp only [List.length_append, List.length_cons, List.length_nil] at this ⊢
        omega
      | networkError =>
        have := ih (e - (i : Int)) (now + i) (times ++ [now]) (log ++ ["Error polling for token"])
        simp only [List.length_append, List.length_cons, List.length_nil] at this ⊢
        omega

/-- When fuel remains and the countdown is positive, a request is issued. -/
theorem pollLoopAux_issues (i : Nat) (s : Nat → PollResponse)
    (fuel : Nat) (e : Int) (now : Nat) (times : List Nat) (log : List String)
    (hfuel : 0 < fuel) (he : 0 < e) :
    times.length + 1 ≤ (pollLoopAux i s fuel e now times log).pollTimes.length := by
  obtain ⟨f, rfl⟩ : ∃ f, fuel = f + 1 := ⟨fuel - 1, by omega⟩
  rw [pollLoopAux, if_neg (by omega)]
  cases hs : s times.length with
  | granted tok => simp
  | expiredToken => simp
  | accessDenied => simp
  | pending =>
    have := pollLoopAux_times_le i s f (e - (i : Int)) (now + i) (times ++ [now])
      (log ++ ["authorization_pending"])
    simp only [List.length_append, List.length_cons, List.length_nil] at this ⊢
    omega
  | slowDown =>
    have := pollLoopAux_times_le i s f (e - (i : Int)) (now + 1 + i) (times ++ [now])
      (log ++ ["Slowing down polling rate..."])
    simp only [List.length_append, List.length_cons, List.length_nil] at this ⊢
    omega
  | unexpected =>
    have := pollLoopAux_times_le i s f (e - (i : Int)) (now + i) (times ++ [now])
      (log ++ ["Unexpected response"])
    simp only [List.length_append, List.length_cons, List.length_nil] at this ⊢
    omega
  | networkError =>
    have := pollLoopAux_times_le i s f (e - (i : Int)) (now + i) (times ++ [now])
      (log ++ ["Error polling for token"])
    simp only [List.length_append, List.length_cons, List.length_nil] at this ⊢
    omega

/-- The loop's result and request timestamps do not depend on the log, and a
`networkError` response steers the loop exactly as `pending` does. -/
theorem pollLoopAux_congr (i : Nat) (s₁ s₂ : Nat → PollResponse)
    (hrel : ∀ n, s₁ n = s₂ n ∨ (s₁ n = .networkError ∧ s₂ n = .pending)) :
    ∀ (fuel : Nat) (e : Int) (now : Nat) (times : List Nat) (log₁ log₂ : List String),
      (pollLoopAux i s₁ fuel e now times log₁).result =
        (pollLoopAux i s₂ fuel e now times log₂).result ∧
      (pollLoopAux i s₁ fuel e now times log₁).pollTimes =
        (pollLoopAux i s₂ fuel e now times log₂).pollTimes := by
  intro fuel
  induction fuel with
  | zero => intro e now times log₁ log₂; simp [pollLoopAux]
  | succ f ih =>
    intro e now times log₁ log₂
    rw [pollLoopAux, pollLoopAux]
    by_cases he : e ≤ 0
    · rw [if_pos he, if_pos he]; exact ⟨rfl, rfl⟩
    · rw [if_neg he, if_neg he]
      rcases hrel times.length with heq | ⟨h1, h2⟩
      · cases hv : s₁ times.length with
        | granted tok => rw [hv] at heq; rw [← heq]; exact ⟨rfl, rfl⟩
        | expiredToken => rw [hv] at heq; rw [← heq]; exact ⟨rfl, rfl⟩
        | accessDenied => rw [hv] at heq; rw [← heq]; exact ⟨rfl, rfl⟩
        | pending => rw [hv] at heq; rw [← heq]; exact ih _ _ _ _ _
        | slowDown => rw [hv] at heq; rw [← heq]; exact ih _ _ _ _ _
        | unexpected => rw [hv] at heq; rw [← heq]; exact ih _ _ _ _ _
        | networkError => rw [hv] at heq; rw [← heq]; exact ih _ _ _ _ _
      · rw [h1, h2]
        exact ih _ _ _ _ _

/-- Unfolding `k` consecutive non-terminal iterations of the loop: the fuel
drops by `k`, the countdown drops by `k` intervals, the clock advances by
`offsetOf`, and one request timestamp is recorded per iteration. -/
theorem pollLoopAux_contSteps (i : Nat) (s : Nat → PollResponse) (k : Nat)
    (fuel : Nat) (e : Int) (now : Nat) (times : List Nat) (log : List String)
    (hcont : ∀ j, j < k → contResponse (s (times.length + j)) = true)
    (hfuel : k ≤ fuel)
    (hpos : ∀ j, j < k → 0 < e - (j : Int) * (i : Int)) :
    ∃ log₂, pollLoopAux i s fuel e now times log =
      pollLoopAux i s (fuel - k) (e - (k : Int) * (i : Int))
        (now + offsetOf s i times.length k)
        (times ++ (List.range k).map (fun j => now + offsetOf s i times.length j)) log₂ := by
  induction k with
  | zero => exact ⟨log, by simp [offsetOf]⟩
  | succ k ih =>
    obtain ⟨log₂, hlog⟩ := ih (fun j hj => hcont j (Nat.lt_succ_of_lt hj))
      (Nat.le_of_succ_le hfuel) (fun j hj => hpos j (Nat.lt_succ_of_lt hj))
    have hposk : 0 < e - (k : Int) * (i : Int) := hpos k (Nat.lt_succ_self k)
    have hfs : fuel - k = (fuel - (k + 1)) + 1 := by omega
    have hlen : (times ++ (List.range k).map
        (fun j => now + offsetOf s i times.length j)).length = times.length + k := by
      simp
    have hck := hcont k (Nat.lt_succ_self k)
    have he1 : e - (k : Int) * (i : Int) - (i : Int) =
        e - ((k + 1 : Nat) : Int) * (i : Int) := by push_cast; ring
    have ht1 : (times ++ (List.range k).map (fun j => now + offsetOf s i times.length j)) ++
        [now + offsetOf s i times.length k] =
        times ++ (List.range (k + 1)).map (fun j => now + offsetOf s i times.length j) := by
      rw [List.range_succ, List.map_append, List.append_assoc]
      simp
    rw [hlog, hfs, pollLoopAux, if_neg (by omega), hlen]
    cases hk : s (times.length + k) with
    | granted tok => rw [hk] at hck; simp [contResponse] at hck
    | expiredToken => rw [hk] at hck; simp [contResponse] at hck
    | accessDenied => rw [hk] at hck; simp [contResponse] at hck
    | pending =>
      have hn1 : now + offsetOf s i times.length k + i =
          now + offsetOf s i times.length (k + 1) := by
        simp only [offsetOf, hk, extraOf]
        omega
      rw [he1, ht1, hn1]
      exact ⟨_, rfl⟩
    | slowDown =>
      have hn1 : now + offsetOf s i times.length k + 1 + i =
          now + offsetOf s i times.length (k + 1) := by
        simp only [offsetOf, hk, extraOf]
        omega
      rw [he1, ht1, hn1]
      exact ⟨_, rfl⟩
    | unexpected =>
      have hn1 : now + offsetOf s i times.length k + i =
          now + offsetOf s i times.length (k + 1) := by
        simp only [offsetOf, hk, extraOf]
        omega
      rw [he1, ht1, hn1]
      exact ⟨_, rfl⟩
    | networkError =>
      have hn1 : now + offsetOf s i times.length k + i =
          now + offsetOf s i times.length (k + 1) := by
        simp only [offsetOf, hk, extraOf]
        omega
      rw [he1, ht1, hn1]
      exact ⟨_, rfl⟩

/-- Resaving at the line level replaces the token entry exactly once. -/
theorem saveLines_idem (L : List (List Char)) (tok₁ tok₂ : List Char) :
    saveLines (saveLines L tok₁) tok₂ = saveLines L tok₂ := by
  have hA : ∀ tok : List Char,
      (saveLines L tok).filter (fun l => !(startsWith l tokenKey)) =
        (L.filter (fun l => !(startsWith l tokenKey))).filter (fun l => !(isBlank l)) := by
    intro tok
    rw [saveLines_eq, List.filter_append]
    have h1 : ((L.filter (fun l => !(startsWith l tokenKey))).filter
        (fun l => !(isBlank l))).filter (fun l => !(startsWith l tokenKey)) =
        (L.filter (fun l => !(startsWith l tokenKey))).filter (fun l => !(isBlank l)) := by
      apply List.filter_eq_self.mpr
      intro a ha
      exact (List.mem_filter.mp (List.mem_filter.mp ha).1).2
    have h2 : [tokenKey ++ tok].filter (fun l => !(startsWith l tokenKey)) = [] := by
      simp [startsWith_append_self]
    rw [h1, h2, List.append_nil]
  rw [saveLines_eq (saveLines L tok₁) tok₂, hA tok₁, saveLines_eq L tok₂]
  have h3 : ((L.filter (fun l => !(startsWith l tokenKey))).filter
      (fun l => !(isBlank l))).filter (fun l => !(isBlank l)) =
      (L.filter (fun l => !(startsWith l tokenKey))).filter (fun l => !(isBlank l)) := by
    apply List.filter_eq_self.mpr
    intro a ha
    exact (List.mem_filter.mp ha).2
  rw [h3]

/-! ### Claims -/

/-- C1 (counterexample): a device-authorization response carrying a
non-empty `user_code` and `device_code` but missing the verification URI,
the expiry and the poll interval passes the source's validation, so the
flow proceeds to polling instead of failing fatally as the claim requires. -/
theorem requestDeviceCode_accepts_missing_uri_expiry_interval :
    validateDeviceResponse
      ⟨some "device-code-1".toList, some "ABCD-1234".toList, none, none, none⟩ = true := by
  decide

/-- C1 (amended): the device-code request validation on line 99 is fatal
exactly when `user_code` or `device_code` is absent or empty; the
verification URI, expiry and interval fields are not checked at all. -/
theorem requestDeviceCode_validation_checks_two_fields (r : DeviceCodeResponse) :
    validateDeviceResponse r = false ↔
      (r.user_code = none ∨ r.user_code = some [] ∨
       r.device_code = none ∨ r.device_code = some []) := by
  rcases r with ⟨dc, uc, vu, ei, iv⟩
  cases uc with
  | none => simp [validateDeviceResponse, truthyField]
  | some u =>
    cases dc with
    | none => simp [validateDeviceResponse, truthyField]
    | some d =>
      simp [validateDeviceResponse, truthyField, List.isEmpty_iff]
      tauto

/-- C4 (counterexample): with prior store content
`GITHUB_OAUTH_TOKEN=old\nFOO=bar`, saving a new token moves the unrelated
key `FOO` from line index 1 to line index 0 (the old token line is removed
and the new entry appended at the end), so the unrelated key's position is
not left unaffected. -/
theorem save_shifts_unrelated_key_position :
    (splitLines ("GITHUB_OAUTH_TOKEN=old".toList ++ '\n' :: "FOO=bar".toList)).get? 1 =
        some ("FOO=bar".toList) ∧
    (splitLines (saveToken ("GITHUB_OAUTH_TOKEN=old".toList ++ '\n' :: "FOO=bar".toList)
        ("new".toList))).get? 1 ≠ some ("FOO=bar".toList) ∧
    (splitLines (saveToken ("GITHUB_OAUTH_TOKEN=old".toList ++ '\n' :: "FOO=bar".toList)
        ("new".toList))).get? 0 = some ("FOO=bar".toList) := by
  decide

/-- C4 (amended): save preserves the values and relative order of all
unrelated lines (removing blank lines), removes every prior token-key line
before appending the new entry, and a second save with a new token replaces
the previous one exactly once (idempotent upsert); absolute line positions
may shift because the prior token line and blank lines are removed. -/
theorem save_upsert_preserves_unrelated_values_and_order
    (raw tok₁ tok₂ : List Char) (h₁ : '\n' ∉ tok₁) :
    (splitLines (saveToken raw tok₁)).filter (fun l => !(startsWith l tokenKey)) =
      ((splitLines raw).filter (fun l => !(startsWith l tokenKey))).filter
        (fun l => !(isBlank l)) ∧
    saveToken (saveToken raw tok₁) tok₂ = saveToken raw tok₂ := by
  have hsplit := saveToken_splitLines raw tok₁ h₁
  constructor
  · rw [hsplit, saveLines_eq, List.filter_append]
    have h1 : (((splitLines raw).filter (fun l => !(startsWith l tokenKey))).filter
        (fun l => !(isBlank l))).filter (fun l => !(startsWith l tokenKey)) =
        ((splitLines raw).filter (fun l => !(startsWith l tokenKey))).filter
          (fun l => !(isBlank l)) := by
      apply List.filter_eq_self.mpr
      intro a ha
      exact (List.mem_filter.mp (List.mem_filter.mp ha).1).2
    have h2 : [tokenKey ++ tok₁].filter (fun l => !(startsWith l tokenKey)) = [] := by
      simp [startsWith_append_self]
    rw [h1, h2, List.append_nil]
  · show joinLines (saveLines (splitLines (saveToken raw tok₁)) tok₂) = _
    rw [hsplit, saveLines_idem]
    rfl

/-- C4 witness: the amended statement at the concrete store
`FOO=bar\nGITHUB_OAUTH_TOKEN=a` with tokens `b` then `c`. -/
theorem save_upsert_preserves_unrelated_values_and_order_witness :
    (splitLines (saveToken ("FOO=bar".toList ++ '\n' :: "GITHUB_OAUTH_TOKEN=a".toList)
        ("b".toList))).filter (fun l => !(startsWith l tokenKey)) =
      ((splitLines ("FOO=bar".toList ++ '\n' :: "GITHUB_OAUTH_TOKEN=a".toList)).filter
        (fun l => !(startsWith l tokenKey))).filter (fun l => !(isBlank l)) ∧
    saveToken (saveToken ("FOO=bar".toList ++ '\n' :: "GITHUB_OAUTH_TOKEN=a".toList)
        ("b".toList)) ("c".toList) =
      saveToken ("FOO=bar".toList ++ '\n' :: "GITHUB_OAUTH_TOKEN=a".toList) ("c".toList) :=
  save_upsert_preserves_unrelated_values_and_order _ _ _ (by decide)

/-- C6: when the `.env` write fails, the script exits non-zero but prints
the failure report together with the raw `GITHUB_OAUTH_TOKEN=` line, and
the store is left untouched, so the obtained credential is not silently
lost. -/
theorem persist_failure_reports_and_prints_token (env tok : List Char) :
    (persistToken env tok false).1 = 1 ∧
    (tokenKey ++ tok) ∈ (persistToken env tok false).2.1 ∧
    (persistToken env tok false).2.2 = env := by
  refine ⟨rfl, ?_, rfl⟩
  simp [persistToken]

/-- C9: after saving a single-line token, exactly one line of the written
store starts with the token key, and that entry is the last line. -/
theorem saved_token_appears_once_and_last (raw tok : List Char) (h : '\n' ∉ tok) :
    ((splitLines (saveToken raw tok)).countP (fun l => startsWith l tokenKey)) = 1 ∧
    (splitLines (saveToken raw tok)).getLast? = some (tokenKey ++ tok) := by
  rw [saveToken_splitLines raw tok h, saveLines_eq]
  constructor
  · rw [List.countP_append]
    have h0 : (((splitLines raw).filter (fun l => !(startsWith l tokenKey))).filter
        (fun l => !(isBlank l))).countP (fun l => startsWith l tokenKey) = 0 := by
      apply List.countP_eq_zero.mpr
      intro a ha
      have := (List.mem_filter.mp (List.mem_filter.mp ha).1).2
      simp only [Bool.not_eq_true'] at this
      simp [this]
    rw [h0]
    simp [List.countP_cons, startsWith_append_self]
  · exact List.getLast?_concat _

/-- C9 witness at a concrete store holding an old token between other keys. -/
theorem saved_token_appears_once_and_last_witness :
    ((splitLines (saveToken ("A=1".toList ++ '\n' :: "GITHUB_OAUTH_TOKEN=x".toList ++
        '\n' :: "B=2".toList) ("tok".toList))).countP
      (fun l => startsWith l tokenKey)) = 1 ∧
    (splitLines (saveToken ("A=1".toList ++ '\n' :: "GITHUB_OAUTH_TOKEN=x".toList ++
        '\n' :: "B=2".toList) ("tok".toList))).getLast? =
      some (tokenKey ++ "tok".toList) :=
  saved_token_appears_once_and_last _ _ (by decide)

/-- C10: the save pipeline removes every empty or whitespace-only line of
the prior store content, and every line of the written store is non-blank. -/
theorem save_removes_all_blank_lines (raw tok : List Char) (h : '\n' ∉ tok) :
    (∀ l ∈ splitLines raw, isBlank l = true → l ∉ splitLines (saveToken raw tok)) ∧
    (∀ l ∈ splitLines (saveToken raw tok), isBlank l = false) := by
  have h2 : ∀ l ∈ splitLines (saveToken raw tok), isBlank l = false := by
    intro l hl
    rw [saveToken_splitLines raw tok h] at hl
    unfold saveLines at hl
    have := (List.mem_filter.mp hl).2
    simpa using this
  refine ⟨?_, h2⟩
  intro l _ hb hmem
  have := h2 l hmem
  rw [hb] at this
  simp at this

/-- C10 witness: the empty middle line of `A=1\n\nB=2` is absent from the
written store. -/
theorem save_removes_all_blank_lines_witness :
    isBlank ([] : List Char) = true ∧
    ([] : List Char) ∉ splitLines (saveToken ("A=1".toList ++ '\n' :: '\n' ::
      "B=2".toList) ("tok".toList)) :=
  ⟨by decide, (save_removes_all_blank_lines _ _ (by decide)).1 [] (by decide) (by decide)⟩

/-- While `j` is below the attempt budget `e / i`, the countdown after `j`
iterations is still positive. -/
theorem budget_pos (e i : Nat) (hi : 1 ≤ i) (j : Nat) (hj : j < e / i) :
    0 < (e : Int) - (j : Int) * (i : Int) := by
  have hje : (j + 1) * i ≤ e :=
    le_trans (Nat.mul_le_mul_right i hj) (Nat.div_mul_le_self e i)
  have hlt : j * i < e := by
    rw [Nat.succ_mul] at hje
    omega
  have hcast : (j : Int) * (i : Int) < (e : Int) := by exact_mod_cast hlt
  omega

/-- C8: when the poll interval exceeds the expiry, the attempt budget
`Math.floor(expiresIn / interval)` is zero, the loop body never runs, no
token request is issued, and the flow ends in the timeout failure path. -/
theorem oversized_interval_means_zero_polls (e i d : Nat) (s : Nat → PollResponse)
    (h : e < i) :
    e / i = 0 ∧ (runFlow e i d s).result = FlowResult.timeout ∧
    (runFlow e i d s).pollTimes = [] := by
  have h0 : e / i = 0 := Nat.div_eq_of_lt h
  refine ⟨h0, ?_, ?_⟩ <;> rw [runFlow, h0] <;> rfl

/-- C8 witness: a 5-second expiry with a 10-second interval issues no polls. -/
theorem oversized_interval_means_zero_polls_witness :
    5 / 10 = 0 ∧ (runFlow 5 10 0 (fun _ => PollResponse.pending)).result =
      FlowResult.timeout ∧
    (runFlow 5 10 0 (fun _ => PollResponse.pending)).pollTimes = [] :=
  oversized_interval_means_zero_polls 5 10 0 _ (by decide)

/-- C3 (counterexample): the loop never consults a clock, so with a
10-second expiry, a 5-second interval, and a 20-second wait at the keypress
prompt, both polls (at 20 s and 25 s after issuance) are issued after the
expiry deadline has passed. -/
theorem poll_issued_after_deadline :
    (runFlow 10 5 20 (fun _ => PollResponse.pending)).pollTimes = [20, 25] ∧
    ¬ (∀ t ∈ (runFlow 10 5 20 (fun _ => PollResponse.pending)).pollTimes, t ≤ 10) := by
  decide

/-- C3 (amended): the number of token requests is bounded by the attempt
budget `floor(expiresIn / interval)`, which is at most
`ceil(expiresIn / interval) + 1`; the wall-clock deadline itself is not
enforced, because the loop decrements a countdown once per attempt instead
of consulting a clock. -/
theorem poll_request_count_bounded (e i d : Nat) (s : Nat → PollResponse) :
    (runFlow e i d s).pollTimes.length ≤ e / i ∧
    e / i ≤ (e + i - 1) / i + 1 := by
  constructor
  · have := pollLoopAux_length_le i s (e / i) (e : Int) d [] []
    simpa using this
  · cases i with
    | zero => simp
    | succ n =>
      have h1 : e ≤ e + (n + 1) - 1 := by omega
      exact le_trans (Nat.div_le_div_right h1) (Nat.le_succ _)

/-- C5: as long as the earlier responses let the loop continue, an
`access_denied` response terminates the flow at once with the denial exit
and an `expired_token` response with the expiry exit; in both cases the
poll that received the terminal response is the last one issued. -/
theorem denied_or_expired_stops_polling_immediately (e i d k : Nat)
    (s : Nat → PollResponse) (hi : 1 ≤ i) (hk : k < e / i)
    (hcont : ∀ j, j < k → contResponse (s j) = true) :
    (s k = PollResponse.accessDenied →
      (runFlow e i d s).result = FlowResult.denied ∧
      (runFlow e i d s).pollTimes.length = k + 1) ∧
    (s k = PollResponse.expiredToken →
      (runFlow e i d s).result = FlowResult.expired ∧
      (runFlow e i d s).pollTimes.length = k + 1) := by
  obtain ⟨log₂, hlog⟩ := pollLoopAux_contSteps i s k (e / i) (e : Int) d [] []
    (fun j hj => by simpa using hcont j hj) (le_of_lt hk)
    (fun j hj => budget_pos e i hi j (lt_trans hj hk))
  have hposk : 0 < (e : Int) - (k : Int) * (i : Int) := budget_pos e i hi k hk
  have hfs : e / i - k = (e / i - k - 1) + 1 := by omega
  rw [runFlow, hlog, hfs, pollLoopAux, if_neg (by omega)]
  simp only [List.nil_append, List.length_map, List.length_range]
  constructor
  · intro hsk
    rw [hsk]
    exact ⟨rfl, by simp⟩
  · intro hsk
    rw [hsk]
    exact ⟨rfl, by simp⟩

/-- C5 witness: pending then denied gives the denial result after exactly
two polls. -/
theorem denied_or_expired_stops_polling_immediately_witness :
    (runFlow 10 2 0 (fun n => if n = 0 then PollResponse.pending
        else PollResponse.accessDenied)).result = FlowResult.denied ∧
    (runFlow 10 2 0 (fun n => if n = 0 then PollResponse.pending
        else PollResponse.accessDenied)).pollTimes.length = 1 + 1 :=
  (denied_or_expired_stops_polling_immediately 10 2 0 1 _ (by decide) (by decide)
    (by decide)).1 (by decide)

/-- C2 (counterexample): for the response script
`[SlowDown, Pending, Granted]` with initial interval 5, the polls are
issued at 0 s, 6 s and 11 s: the gap before the third poll is 5 s, equal
to (not strictly greater than) the initial interval, and the inter-poll
spacing 6 s then 5 s is not monotonically non-decreasing. -/
theorem slow_down_third_poll_gap_not_increased :
    (runFlow 20 5 0 (fun n => if n = 0 then PollResponse.slowDown
        else if n = 1 then PollResponse.pending
        else PollResponse.granted "tok")).pollTimes = [0, 6, 11] ∧
    ¬ (5 < 11 - 6) ∧ ¬ (6 - 0 ≤ 11 - 6) := by
  decide

/-- C2 (amended): a `slow_down` response triggers a one-time extra sleep of
exactly one second inside that iteration; the stored interval is never
changed, so for `[SlowDown, Pending, Granted]` the polls happen at
`d`, `d + i + 1` and `d + 2i + 1`: the gap after the slow-down poll is
`i + 1`, but the following gap is back to the initial interval `i`. -/
theorem slow_down_extra_second_only_once (e i d : Nat) (tok : String)
    (s : Nat → PollResponse) (hi : 1 ≤ i) (he : 3 ≤ e / i)
    (h0 : s 0 = PollResponse.slowDown) (h1 : s 1 = PollResponse.pending)
    (h2 : s 2 = PollResponse.granted tok) :
    (runFlow e i d s).result = FlowResult.success tok ∧
    (runFlow e i d s).pollTimes = [d, d + (i + 1), d + (2 * i + 1)] := by
  obtain ⟨log₂, hlog⟩ := pollLoopAux_contSteps i s 2 (e / i) (e : Int) d [] []
    (by
      intro j hj
      interval_cases j
      · simpa [contResponse] using congrArg contResponse h0
      · simpa [contResponse] using congrArg contResponse h1)
    (by omega)
    (fun j hj => budget_pos e i hi j (by omega))
  have hposk : 0 < (e : Int) - (2 : Int) * (i : Int) := by
    have := budget_pos e i hi 2 (by omega)
    simpa using this
  have hoff0 : offsetOf s i 0 0 = 0 := rfl
  have hoff1 : offsetOf s i 0 1 = i + 1 := by
    simp [offsetOf, extraOf, h0]
  have hoff2 : offsetOf s i 0 2 = 2 * i + 1 := by
    have hstep : offsetOf s i 0 2 = offsetOf s i 0 1 + i + extraOf (s 1) := rfl
    rw [hstep, hoff1, h1]
    simp only [extraOf]
    omega
  have hfs : e / i - 2 = (e / i - 3) + 1 := by omega
  rw [runFlow, hlog, hfs, pollLoopAux, if_neg (by push_cast; omega)]
  simp only [List.nil_append, List.length_map, List.length_range, List.length_nil]
  rw [h2]
  refine ⟨rfl, ?_⟩
  have hmap : (List.range 2).map (fun j => d + offsetOf s i 0 j) =
      [d + offsetOf s i 0 0, d + offsetOf s i 0 1] := by
    rw [show List.range 2 = [0, 1] from by decide]
    rfl
  rw [hmap, hoff0, hoff1, hoff2]
  simp

/-- C2 witness: the amended statement at `e = 20`, `i = 5`, `d = 0`. -/
theorem slow_down_extra_second_only_once_witness :
    (runFlow 20 5 0 (fun n => if n = 0 then PollResponse.slowDown
        else if n = 1 then PollResponse.pending
        else PollResponse.granted "tok")).result = FlowResult.success "tok" ∧
    (runFlow 20 5 0 (fun n => if n = 0 then PollResponse.slowDown
        else if n = 1 then PollResponse.pending
        else PollResponse.granted "tok")).pollTimes = [0, 0 + (5 + 1), 0 + (2 * 5 + 1)] :=
  slow_down_extra_second_only_once 20 5 0 "tok" _ (by decide) (by decide)
    (by decide) (by decide) (by decide)

/-- C7: replacing a network-error response by `authorization_pending`
changes neither the flow result nor the request timestamps (a single failed
poll is swallowed and treated like a pending poll), and while attempt
budget remains after the failed poll, the loop issues at least one further
request, so a single failed poll never terminates the flow. -/
theorem network_error_swallowed_like_pending (e i d k : Nat)
    (s : Nat → PollResponse) (hk : s k = PollResponse.networkError) :
    ((runFlow e i d s).result =
        (runFlow e i d (Function.update s k PollResponse.pending)).result ∧
      (runFlow e i d s).pollTimes =
        (runFlow e i d (Function.update s k PollResponse.pending)).pollTimes) ∧
    ((∀ j, j ≤ k → contResponse (s j) = true) → k + 2 ≤ e / i → 1 ≤ i →
      k + 2 ≤ (runFlow e i d s).pollTimes.length) := by
  constructor
  · apply pollLoopAux_congr
    intro n
    by_cases hn : n = k
    · subst hn
      exact Or.inr ⟨hk, Function.update_same _ _ _⟩
    · exact Or.inl (by rw [Function.update_noteq hn])
  · intro hcont hbudget hi
    obtain ⟨log₂, hlog⟩ := pollLoopAux_contSteps i s (k + 1) (e / i) (e : Int) d [] []
      (fun j hj => by simpa using hcont j (by omega)) (by omega)
      (fun j hj => budget_pos e i hi j (by omega))
    rw [runFlow, hlog]
    have hissue := pollLoopAux_issues i s (e / i - (k + 1))
      ((e : Int) - ((k + 1 : Nat) : Int) * (i : Int))
      (d + offsetOf s i ([] : List Nat).length (k + 1))
      (([] : List Nat) ++ (List.range (k + 1)).map
        (fun j => d + offsetOf s i ([] : List Nat).length j)) log₂
      (by omega) (budget_pos e i hi (k + 1) (by omega))
    simp only [List.nil_append, List.length_map, List.length_range] at hissue ⊢
    omega

/-- C7 witness: one network error at the first poll of a 10-attempt budget. -/
theorem network_error_swallowed_like_pending_witness :
    ((runFlow 20 2 0 (fun n => if n = 0 then PollResponse.networkError
          else PollResponse.pending)).result =
        (runFlow 20 2 0 (Function.update (fun n => if n = 0 then PollResponse.networkError
          else PollResponse.pending) 0 PollResponse.pending)).result ∧
      (runFlow 20 2 0 (fun n => if n = 0 then PollResponse.networkError
          else PollResponse.pending)).pollTimes =
        (runFlow 20 2 0 (Function.update (fun n => if n = 0 then PollResponse.networkError
          else PollResponse.pending) 0 PollResponse.pending)).pollTimes) ∧
    0 + 2 ≤ (runFlow 20 2 0 (fun n => if n = 0 then PollResponse.networkError
      else PollResponse.pending)).pollTimes.length :=
  ⟨(network_error_swallowed_like_pending 20 2 0 0 _ (by decide)).1,
   (network_error_swallowed_like_pending 20 2 0 0 _ (by decide)).2
     (by decide) (by decide) (by decide)⟩

end GetToken
